import Mathlib

/-!
Shallow embedding of the CRS telemetry buffer pool and event pipeline of
`src/hotspot/src/share/vm/services/connectedRuntime.cpp`.

Machine integers are modelled as `Nat` (the counters involved never go
negative along the guarded paths, mirroring the asserts in the source),
buffers are identified by their index in the `_buffers` array, and the
lock-free lists are modelled by their sequential contents: the park-marker
CAS protocol makes every list operation atomic, so the sequential model is
the linearized behaviour.  C strings are modelled as `List Char`.
Environment interactions (os::commit_memory, os::uncommit_memory, socket
reads) are passed in as explicit oracles/input lists.
-/

namespace CRS

/-- Pointwise update of a function, used for the per-buffer fields of the
TLB array and for the per-thread buffer of crs_thread_locals. -/
def upd {β : Type} (f : Nat → β) (k : Nat) (v : β) : Nat → β :=
  fun x => if x = k then v else f x

/-! ### CRSConcurrentLinkedList (lines 398-459), sequential content model -/

namespace CLL

/-- CRSConcurrentLinkedList::add (420-428): push one item at the head. -/
def add (x : Nat) (l : List Nat) : List Nat := x :: l

/-- CRSConcurrentLinkedList::add_items (430-442): attach a whole chain,
preserving its internal order, in front of the current content. -/
def addItems (items l : List Nat) : List Nat := items ++ l

/-- CRSConcurrentLinkedList::remove (444-459): after parking the head with
the marker, cut off the head item, store its successor as the new head and
return the detached head. -/
def remove (l : List Nat) : Option Nat × List Nat :=
  match l with
  | [] => (none, [])
  | h :: t => (some h, t)

end CLL

/-! ### TLB and TLBManager (lines 461-727) -/

/-- Alignment constant: `TLBManager::align = sizeof(intptr_t)` (8 on the
64-bit targets of this port); `align_up(size, 8)`. -/
def align8 (n : Nat) : Nat := (n + 7) / 8 * 8

/-- Combined state of a TLBManager and the per-buffer TLB fields.
`free`, `leased`, `uncommitted` are `_free_list`, `_leased_list`,
`_uncommitted_list`; `notFinished` is the `_not_finished` chain used during
flush; `pos`, `owner`, `recs`, `refMsg` carry `_pos`, `_owner`, the message
records written so far (in allocation order) and the single
`_reference_message` slot (`CRS_MESSAGE_BACK_REFERENCE_CLASS_LOAD`) of each
buffer. -/
structure MState where
  free : List Nat
  leased : List Nat
  uncommitted : List Nat
  notFinished : List Nat
  numCommitted : Nat
  bufferSize : Nat
  buffersCount : Nat
  bytesUsed : Nat
  pos : Nat → Nat
  owner : Nat → Option Nat
  recs : Nat → List Nat
  refMsg : Nat → Option Nat

/-- End state of the TLBManager constructor (550-590): the first `n0`
buffers are committed and pushed (from index n0-1 down to 0) onto the free
list, the rest are pushed (from the top down) onto the uncommitted list. -/
def mkPool (bs count n0 : Nat) : MState :=
  { free := List.range n0
    leased := []
    uncommitted := List.range' n0 (count - n0)
    notFinished := []
    numCommitted := n0
    bufferSize := bs
    buffersCount := count
    bytesUsed := 0
    pos := fun _ => 0
    owner := fun _ => none
    recs := fun _ => []
    refMsg := fun _ => none }

/-- TLB::lease (471-476) followed by the list insertion and byte accounting
done by lease_buffer (623-625): reset cursor and back-references, set the
owner, push onto the leased list. -/
def doLease (s : MState) (b thread : Nat) : MState :=
  { s with pos := upd s.pos b 0
           owner := upd s.owner b (some thread)
           recs := upd s.recs b []
           refMsg := upd s.refMsg b none
           leased := b :: s.leased
           bytesUsed := s.bytesUsed + s.bufferSize }

/-- TLBManager::lease_buffer (599-630).  `commitOk` plays the result of
os::commit_memory; on failure the buffer is pushed back to the head of the
uncommitted list, so the state is unchanged. -/
def leaseBuffer (s : MState) (thread : Nat) (commitOk : Bool) : Option Nat × MState :=
  match s.free with
  | b :: rest => (some b, doLease { s with free := rest } b thread)
  | [] =>
    match s.uncommitted with
    | b :: rest =>
      if commitOk then
        (some b, doLease { s with uncommitted := rest, numCommitted := s.numCommitted + 1 } b thread)
      else
        (none, s)
    | [] => (none, s)

/-- TLB::release (477): clear the owner. -/
def releaseB (s : MState) (b : Nat) : MState :=
  { s with owner := upd s.owner b none }

/-- TLBManager::ensure (636-646): keep the current buffer if it has room,
otherwise release it (it stays on the leased list) and lease a fresh one. -/
def ensure (s : MState) (buffer : Option Nat) (size thread : Nat) (commitOk : Bool) :
    Option Nat × MState :=
  match buffer with
  | some b =>
    if size ≤ s.bufferSize - s.pos b then (some b, s)
    else leaseBuffer (releaseB s b) thread commitOk
  | none => leaseBuffer s thread commitOk

/-- TLB::alloc (543-548) under TLBManager::alloc (648-655): bump the cursor
by the aligned size and append the record; the returned pointer is the
absolute byte offset of the record inside the reserved area. -/
def poolAlloc (s : MState) (b size msg : Nat) : Nat × MState :=
  (b * s.bufferSize + s.pos b,
   { s with pos := upd s.pos b (s.pos b + align8 size)
            recs := upd s.recs b (s.recs b ++ [msg]) })

/-- Loop-local state of TLBManager::flush_buffers: the locally collected
uncommitted chain (`uncommitted` variable at 658), the remaining uncommit
quota (`to_uncommit`, 661), a counter of uncommit attempts used to index the
uncommit oracle, and the records handed to the message sink so far. -/
structure FlushLocals where
  pending : List Nat
  toUncommit : Nat
  attempt : Nat
  sink : List Nat

/-- One iteration of the flush_buffers reclaim loop (662-687): pop one
buffer from the leased list (none means the loop exits); a buffer whose
owner is live goes onto the `_not_finished` chain; a finished buffer is
handed record-by-record to the sink, its bytes are subtracted, and it is
either uncommitted (quota remaining and uncommit succeeding, 680 and
709-718, joining the local pending chain with the committed count
decremented) or pushed back onto the free list. -/
def flushIter (uok : Nat → Bool) (s : MState) (l : FlushLocals) :
    Option (MState × FlushLocals) :=
  match s.leased with
  | [] => none
  | b :: rest =>
    match s.owner b with
    | some _ => some ({ s with leased := rest, notFinished := b :: s.notFinished }, l)
    | none =>
      match l.toUncommit with
      | 0 =>
        some ({ s with leased := rest, free := b :: s.free,
                       bytesUsed := s.bytesUsed - s.bufferSize },
              { l with sink := l.sink ++ s.recs b })
      | tu + 1 =>
        if uok l.attempt then
          some ({ s with leased := rest, numCommitted := s.numCommitted - 1,
                         bytesUsed := s.bytesUsed - s.bufferSize },
                ⟨b :: l.pending, tu, l.attempt + 1, l.sink ++ s.recs b⟩)
        else
          some ({ s with leased := rest, free := b :: s.free,
                         bytesUsed := s.bytesUsed - s.bufferSize },
                ⟨l.pending, tu + 1, l.attempt + 1, l.sink ++ s.recs b⟩)

/-- The flush_buffers reclaim loop, fuelled by the length of the leased
list (each iteration pops exactly one element). -/
def flushLoop (uok : Nat → Bool) : Nat → MState → FlushLocals → MState × FlushLocals
  | 0, s, l => (s, l)
  | fuel + 1, s, l =>
    match flushIter uok s l with
    | none => (s, l)
    | some r => flushLoop uok fuel r.1 r.2

/-- Second phase of flush_buffers (693-702): while quota remains, pop idle
buffers from the free list and uncommit them; an empty free list ends the
loop, and an uncommit failure ends the loop with the popped buffer returned
to no list (the source breaks without pushing it back). -/
def idleLoop (uok : Nat → Bool) : List Nat → List Nat → Nat → Nat → Nat →
    List Nat × List Nat × Nat
  | freeL, pending, committed, 0, _ => (freeL, pending, committed)
  | [], pending, committed, _ + 1, _ => ([], pending, committed)
  | b :: rest, pending, committed, tu + 1, att =>
    if uok att then idleLoop uok rest (b :: pending) (committed - 1) tu (att + 1)
    else (rest, pending, committed)

/-- TLBManager::flush_buffers (657-707): `goal` is committed_goal in bytes,
divided by the buffer size at 660; the quota is the excess of the committed
count over the goal; after the reclaim loop the not-finished chain is
prepended back onto the leased list (689-692) and the locally collected
uncommitted chain is prepended onto the uncommitted list (703-704).
Returns the final state and the records handed to the message sink. -/
def flushBuffers (uok : Nat → Bool) (goal : Nat) (s : MState) : MState × List Nat :=
  let tu := s.numCommitted - goal / s.bufferSize
  let r := flushLoop uok s.leased.length s ⟨[], tu, 0, []⟩
  let s2 := { r.1 with leased := r.1.notFinished ++ r.1.leased, notFinished := [] }
  let w := idleLoop uok s2.free r.2.pending s2.numCommitted r.2.toUncommit r.2.attempt
  ({ s2 with free := w.1, uncommitted := w.2.1 ++ s2.uncommitted, numCommitted := w.2.2 },
   r.2.sink)

/-- Accumulator for the claim-shaped restatement of the reclaim phase. -/
structure ReclaimAcc where
  free : List Nat
  pending : List Nat
  committed : Nat
  bytesA : Nat
  tu : Nat
  att : Nat
  sink : List Nat

/-- Handling of one finished (ownerless) buffer during reclaim, as described
by the (amended) claim: decode its records into the sink, then while quota
remains attempt to uncommit it (moving it to the pending uncommitted chain
and decrementing the committed count); on no quota or uncommit failure the
buffer goes back to the free list. -/
def reclaimStep (uok : Nat → Bool) (bs : Nat) (rc : Nat → List Nat) (a : ReclaimAcc)
    (b : Nat) : ReclaimAcc :=
  match a.tu with
  | 0 => { a with free := b :: a.free, bytesA := a.bytesA - bs, sink := a.sink ++ rc b }
  | tu + 1 =>
    if uok a.att then
      { a with pending := b :: a.pending, committed := a.committed - 1,
               bytesA := a.bytesA - bs, tu := tu, att := a.att + 1, sink := a.sink ++ rc b }
    else
      { a with free := b :: a.free, bytesA := a.bytesA - bs, att := a.att + 1,
               sink := a.sink ++ rc b }

/-- Claim-shaped restatement of flush_buffers (for C2): first partition the
popped leased chain by ownership observed at pop time; owned buffers are
returned verbatim to the leased list (in reversed pop order, never decoded);
ownerless buffers are folded through `reclaimStep` in pop order; then the
idle-free phase runs, and the collected chain joins the uncommitted list. -/
def flushSpecC2 (uok : Nat → Bool) (goal : Nat) (s : MState) : MState × List Nat :=
  let owned := s.leased.filter fun b => (s.owner b).isSome
  let unowned := s.leased.filter fun b => (s.owner b).isNone
  let a := unowned.foldl (reclaimStep uok s.bufferSize s.recs)
    ⟨s.free, [], s.numCommitted, s.bytesUsed, s.numCommitted - goal / s.bufferSize, 0, []⟩
  let w := idleLoop uok a.free a.pending a.committed a.tu a.att
  ({ s with leased := owned.reverse ++ s.notFinished, notFinished := [],
            free := w.1, uncommitted := w.2.1 ++ s.uncommitted, numCommitted := w.2.2,
            bytesUsed := a.bytesA }, a.sink)

/-! ### NativeMemory (lines 524-541, 729-788, 1064-1078) -/

/-- NativeMemory state: the TLB manager, the per-thread current buffer
(`crs_thread_locals()->buffer()`), the `_previous_usage` watermark and the
sticky `_overflow` flag. -/
structure NM where
  pool : MState
  threadBuf : Nat → Option Nat
  previousUsage : Nat
  overflow : Bool

/-- NativeMemory::alloc, plain variant (755-769).  `msg` is the abstract
record identity written in place on success; `commitOk` plays
os::commit_memory inside lease_buffer. -/
def nmAlloc (s : NM) (size thread : Nat) (commitOk : Bool) (msg : Nat) : Option Nat × NM :=
  if s.overflow then (none, s)
  else
    let buffer := s.threadBuf thread
    let r := ensure s.pool buffer size thread commitOk
    let s1 : NM :=
      if r.1 = buffer then { s with pool := r.2 }
      else { s with pool := r.2, threadBuf := upd s.threadBuf thread r.1 }
    match r.1 with
    | some b =>
      let a := poolAlloc s1.pool b size msg
      (some a.1, { s1 with pool := a.2 })
    | none => (none, { s1 with overflow := true })

/-- NativeMemory::alloc, back-reference variant (735-753): a buffer change
forces is_reference to true; on success the allocated size is the reference
size when is_reference holds, and the message becomes the buffer's new
reference message. -/
def nmAllocRef (s : NM) (isRef : Bool) (size sizeRef thread : Nat) (commitOk : Bool)
    (msg : Nat) : Option Nat × Bool × NM :=
  if s.overflow then (none, isRef, s)
  else
    let buffer := s.threadBuf thread
    let r := ensure s.pool buffer size thread commitOk
    let isRef1 := if r.1 = buffer then isRef else true
    let s1 : NM :=
      if r.1 = buffer then { s with pool := r.2 }
      else { s with pool := r.2, threadBuf := upd s.threadBuf thread r.1 }
    match r.1 with
    | some b =>
      let a := poolAlloc s1.pool b (if isRef1 then sizeRef else size) msg
      let pool2 := if isRef1 then { a.2 with refMsg := upd a.2.refMsg b (some a.1) } else a.2
      (some a.1, isRef1, { s1 with pool := pool2 })
    | none => (none, isRef1, { s1 with overflow := true })

/-- NativeMemory::flush (1064-1078): compute the midpoint target from the
previous watermark and the current usage, store the current usage as the new
watermark, flush the buffer pool toward the target, and if overflow was
pending report the data-lost message with the before/after bytes-used pair
and clear the flag.  Returns the new state and the optional report. -/
def nmFlush (uok : Nat → Bool) (s : NM) : NM × Option (Nat × Nat) :=
  let nextTarget := (s.previousUsage + s.pool.bytesUsed) / 2
  let before := s.pool.bytesUsed
  let r := flushBuffers uok nextTarget s.pool
  ({ pool := r.1, threadBuf := s.threadBuf, previousUsage := s.pool.bytesUsed,
     overflow := false },
   if s.overflow then some (before, r.1.bytesUsed) else none)

/-! ### CrsClassLoadMessage::post and constructor (lines 907-1010) -/

/-- Relevant fields of the previous reference message, a
CrsClassLoadMessage already present in the thread's buffer: its
`_flags.has_source` bit and its source string. -/
structure PrevRef where
  hasSrc : Bool
  src : List Char

/-- Encoding-relevant outcome of constructing a CrsClassLoadMessage: the
`has_same_source`/`has_source` bits, whether the source string bytes are
stored in the variable region, and the recorded message size. -/
structure ClmEnc where
  hasSameSource : Bool
  hasSource : Bool
  storesSource : Bool
  msize : Nat
deriving DecidableEq

/-- Normalization of the source argument at 981-984: the empty string
becomes absent. -/
def clmNormSrc : Option (List Char) → Option (List Char)
  | some [] => none
  | x => x

/-- Sanity filter of the reference message at 976-980: a reference without
has_source is discarded. -/
def clmNormPrev : Option PrevRef → Option PrevRef
  | some p => if p.hasSrc then some p else none
  | none => none

/-- The is_new_reference computation at 985-987 (strcmp is zero exactly on
equal strings). -/
def clmIsNewRef : Option (List Char) → Option PrevRef → Bool
  | some s, some p => decide (¬(p.src = s))
  | some _, none => true
  | none, _ => false

/-- size_no_ref at 990: offset_of(CrsClassLoadMessage, _data) plus the class
name and its terminator.  `dOff` is the layout constant
offset_of(CrsClassLoadMessage, _data), kept as a parameter. -/
def clmSizeNoRef (dOff nameLen : Nat) : Nat := dOff + nameLen + 1

/-- size_with_ref at 991: size_no_ref plus the source string and its
terminator when a source is present. -/
def clmSizeWithRef (dOff nameLen : Nat) (src : Option (List Char)) : Nat :=
  clmSizeNoRef dOff nameLen + (match src with | some s => s.length + 1 | none => 0)

/-- CrsClassLoadMessage::post (973-1003) combined with NativeMemory::alloc's
is_reference flip (735-753) and the constructor's flag assignment (929-958).
`rotated` abstracts `new_buffer != buffer` inside NativeMemory::alloc and
`allocOk` abstracts a non-null allocation; the constructor receives a
non-null `reference` argument exactly when the final is_new_reference is
false and the (normalized) previous reference exists, which sets
has_same_source; otherwise a present (normalized) source sets has_source and
stores the string. -/
def clmPost (dOff nameLen : Nat) (prev0 : Option PrevRef) (source0 : Option (List Char))
    (rotated allocOk : Bool) : Option ClmEnc :=
  let prev := clmNormPrev prev0
  let source := clmNormSrc source0
  let isNew := clmIsNewRef source prev
  if allocOk then
    let isNew1 := isNew || rotated
    let reference := if isNew1 then none else prev
    some { hasSameSource := reference.isSome
           hasSource := !reference.isSome && source.isSome
           storesSource := !reference.isSome && source.isSome
           msize := if isNew1 then clmSizeWithRef dOff nameLen source
                    else clmSizeNoRef dOff nameLen }
  else none

/-! ### CRSCommandListenerThread (lines 149-364, 1858-1954) -/

/-- The character written for one decimal digit of the length by
write_message (241): '0' + (len % 10). -/
def digitChar (n : Nat) : Char := Char.ofNat (48 + n % 10)

/-- The CRS_CMD_LEN_SIZE = 4 decimal digits of a message length, most
significant first, as produced by the loop at 240-243. -/
def lenDigits (n : Nat) : List Char :=
  [digitChar (n / 1000), digitChar (n / 100), digitChar (n / 10), digitChar n]

/-- CRSCommandListenerThread::write_message (237-248): the four length
digits followed by the payload. -/
def frame (msg : List Char) : List Char := lenDigits msg.length ++ msg

/-- Whitespace recognized by C isspace, skipped by atoi and by the %d
conversion of sscanf. -/
def isSpace (c : Char) : Bool :=
  c = ' ' || c = '\t' || c = '\n' || c = '\r' || c = '\x0b' || c = '\x0c'

/-- ASCII decimal digit test. -/
def isDigitC (c : Char) : Bool := '0' ≤ c && c ≤ '9'

/-- Accumulate a run of decimal digits, returning the value and the rest. -/
def digitsAcc (acc : Nat) : List Char → Nat × List Char
  | c :: rest => if isDigitC c then digitsAcc (acc * 10 + (c.toNat - 48)) rest else (acc, c :: rest)
  | [] => (acc, [])

/-- C atoi on the payload (used at 233 and 320): skip whitespace, optional
sign, then a (possibly empty) run of digits; no digits yields 0. -/
def atoi (s : List Char) : Int :=
  let s1 := s.dropWhile isSpace
  match s1 with
  | '-' :: rest => -((digitsAcc 0 rest).1 : Int)
  | '+' :: rest => ((digitsAcc 0 rest).1 : Int)
  | _ => ((digitsAcc 0 s1).1 : Int)

/-- Prefix test, as performed by strncmp(lit, cmd, |lit|) == 0. -/
def strHasPre : List Char → List Char → Bool
  | [], _ => true
  | _ :: _, [] => false
  | a :: as, b :: bs => a = b && strHasPre as bs

/-- The literal "disableCRS()" compared against at 1861. -/
def disableLit : List Char :=
  ['d', 'i', 's', 'a', 'b', 'l', 'e', 'C', 'R', 'S', '(', ')']

/-- The literal "drainQueues(" compared against at 1888. -/
def drainLit : List Char :=
  ['d', 'r', 'a', 'i', 'n', 'Q', 'u', 'e', 'u', 'e', 's', '(']

/-- The %d conversion of sscanf: skip whitespace, optional sign, then at
least one digit; returns the value and the remaining input. -/
def scanDec (s : List Char) : Option (Int × List Char) :=
  let s1 := s.dropWhile isSpace
  match s1 with
  | '-' :: c :: rest =>
    if isDigitC c then
      let r := digitsAcc (c.toNat - 48) rest
      some (-(r.1 : Int), r.2)
    else none
  | '+' :: c :: rest =>
    if isDigitC c then
      let r := digitsAcc (c.toNat - 48) rest
      some ((r.1 : Int), r.2)
    else none
  | c :: rest =>
    if isDigitC c then
      let r := digitsAcc (c.toNat - 48) rest
      some ((r.1 : Int), r.2)
    else none
  | [] => none

/-- sscanf(s, "(%d,%d)") needing both conversions (res == 2), as used by the
drainQueues command at 1890: literal '(', %d, literal ',', %d; the value of
the second conversion (stopAfterDrain) is returned. -/
def drainStopArg (s : List Char) : Option Int :=
  match s with
  | '(' :: r1 =>
    match scanDec r1 with
    | some v1 =>
      match v1.2 with
      | ',' :: r3 =>
        match scanDec r3 with
        | some v2 => some v2.1
        | none => none
      | _ => none
    | none => none
  | _ => none

/-- Whether processing a command terminates the listener loop: disableCRS()
calls stop() (1862); drainQueues(force,stopAfterDrain) with a parsed nonzero
stopAfterDrain calls flush_buffers with and_stop, which calls stop() (1817-
1823) — but only when the runtime is initialized (_is_init, modelled by
`inited`), since flush_buffers returns early otherwise. -/
def stopsCmd (inited : Bool) (m : List Char) : Bool :=
  if strHasPre disableLit m then true
  else if strHasPre drainLit m then
    match drainStopArg (m.drop 11) with
    | some v2 => inited && decide (¬(v2 = 0))
    | none => false
  else false

/-- The post-authentication request loop (333-342): read a request, process
it (process_cmd always returns NULL, so write_message sends the empty frame
"0000"), and continue until a stop or until the input is exhausted (recv
failure closes the connection and ends the loop).  Returns the framed
responses and the list of commands actually processed. -/
def cmdLoop (inited : Bool) : List (List Char) → List (List Char) × List (List Char)
  | [] => ([], [])
  | m :: rest =>
    if stopsCmd inited m then ([frame []], [m])
    else
      let r := cmdLoop inited rest
      (frame [] :: r.1, m :: r.2)

/-- The payload "OK" of the authentication acknowledgement (326). -/
def okChars : List Char := ['O', 'K']

/-- Observable outcome of one connection on the control channel. -/
structure ServerRes where
  replies : List (List Char)
  closedEarly : Bool
  processed : List (List Char)
deriving DecidableEq

/-- CRSCommandListenerThread::thread_entry (292-348), one accepted
connection, with the input modelled as the list of received payloads: the
first payload is the authentication message, compared by
`_connection_secret != atoi(read_message())` (320); on mismatch the
connection is closed with nothing written; on match "OK" is written framed
and the request loop runs. -/
def serverRun (secret : Int) (inited : Bool) (msgs : List (List Char)) : ServerRes :=
  match msgs with
  | [] => ⟨[], true, []⟩
  | auth :: rest =>
    if atoi auth = secret then
      let r := cmdLoop inited rest
      ⟨frame okChars :: r.1, false, r.2⟩
    else ⟨[], true, []⟩

/-! ### Event queue (lines 790-808, 1746-1793) -/

/-- Observable events of ConnectedRuntime::flush_events: mutex acquisition
and release, detaching one queue entry, invoking its process callback, and
deleting it. -/
inductive QTrace
  | lockT
  | unlockT
  | popT (e : Nat)
  | processT (e : Nat)
  | destroyT (e : Nat)
deriving DecidableEq

/-- ConnectedRuntime::schedule (1746-1757): append the event at the tail of
the queue (under the Service_lock). -/
def scheduleQ (e : Nat) (q : List Nat) : List Nat := q ++ [e]

/-- ConnectedRuntime::flush_events (1767-1793) as an event trace over the
queue content (head first).  Each loop iteration takes the Service_lock,
detaches exactly one entry (or breaks on empty), releases the lock, then
outside the lock processes the entry when `p` holds and deletes it; the
single-entry iteration resets the tail and clears `more`, so no further lock
round happens after the last entry. -/
def drainTrace (p : Bool) : List Nat → List QTrace
  | [] => [QTrace.lockT, QTrace.unlockT]
  | e :: rest =>
    [QTrace.lockT, QTrace.popT e, QTrace.unlockT] ++
      (if p then [QTrace.processT e] else []) ++ [QTrace.destroyT e] ++
      (if rest.isEmpty then [] else drainTrace p rest)

/-- Test for a pop event. -/
def isPop : QTrace → Bool
  | QTrace.popT _ => true
  | _ => false

/-- Test for a lock release event. -/
def isUnlock : QTrace → Bool
  | QTrace.unlockT => true
  | _ => false

/-- The claim's shape for the drain: all detachments happen inside the first
critical section (before the first lock release). -/
def detachAllFirst (tr : List QTrace) : Bool :=
  (tr.takeWhile fun t => !isUnlock t).countP isPop = tr.countP isPop

/-! ### Invariants of the buffer pool (for C1) -/

/-- The three-set partition invariant exactly as the claim states it, over
the three lists only.  The multiset equation with the duplicate-free range
says simultaneously that the three sets are pairwise disjoint and that
their union is all buffers (each buffer occurs in exactly one list). -/
def invClaim (s : MState) : Prop :=
  ((s.free : Multiset Nat) + (s.leased : Multiset Nat) + (s.uncommitted : Multiset Nat)
      = (List.range s.buffersCount : Multiset Nat)) ∧
  s.numCommitted = s.free.length + s.leased.length ∧
  s.numCommitted ≤ s.buffersCount

/-- The mid-flush generalization of the invariant: during flush_buffers the
popped-but-owned buffers sit on the `_not_finished` chain and the
successfully uncommitted ones on the loop-local pending chain, so the
partition (and the committed count, which includes the not-finished buffers
but not the pending ones) extends over five components. -/
def invMid (s : MState) (pending : List Nat) : Prop :=
  ((s.free : Multiset Nat) + (s.leased : Multiset Nat) + (s.uncommitted : Multiset Nat)
      + (s.notFinished : Multiset Nat) + (pending : Multiset Nat)
      = (List.range s.buffersCount : Multiset Nat)) ∧
  s.numCommitted = s.free.length + s.leased.length + s.notFinished.length ∧
  s.numCommitted ≤ s.buffersCount

/-! ### Bump-allocation arithmetic (for C7) -/

/-- The sequence of (offset, requested size) pairs produced by successive
TLB::alloc calls starting at cursor `pos`: each call returns the current
cursor and advances it by the 8-byte aligned size (543-548). -/
def allocSeq : Nat → List Nat → List (Nat × Nat)
  | _, [] => []
  | pos, sz :: rest => (pos, sz) :: allocSeq (pos + align8 sz) rest

/-- The guard established by ensure (638) and asserted by TLBManager::alloc
(649) for each allocation in the sequence: the requested size fits in the
remaining capacity at the current cursor. -/
def fitsSeq (cap : Nat) : Nat → List Nat → Bool
  | _, [] => true
  | pos, sz :: rest => decide (sz ≤ cap - pos) && fitsSeq cap (pos + align8 sz) rest

/-! ### Concrete states used by counterexamples and witnesses -/

/-- A reachable pool state: two buffers, both committed, buffer 0 leased to
thread 5, buffer 1 free. -/
def c1S0 : MState :=
  { free := [1], leased := [0], uncommitted := [], notFinished := [],
    numCommitted := 2, bufferSize := 8, buffersCount := 2, bytesUsed := 8,
    pos := fun _ => 0,
    owner := fun b => if b = 0 then some 5 else none,
    recs := fun _ => [], refMsg := fun _ => none }

/-- The state after the first flush loop iteration on `c1S0` (the owned
buffer 0 has been popped from the leased list onto the not-finished
chain). -/
def c1Mid : MState :=
  ((flushIter (fun _ => true) c1S0 ⟨[], 0, 0, []⟩).getD (c1S0, ⟨[], 0, 0, []⟩)).1

/-- A pool state used by the C1 witness: buffer 0 leased and already
released by its owner, buffer 1 free. -/
def c1W0 : MState :=
  { free := [1], leased := [0], uncommitted := [], notFinished := [],
    numCommitted := 2, bufferSize := 8, buffersCount := 2, bytesUsed := 8,
    pos := fun _ => 0, owner := fun _ => none,
    recs := fun _ => [], refMsg := fun _ => none }

/-- A reachable pool state for the C2 counterexample: buffer 1 leased (owner
alive), buffer 0 free, both committed, buffer size 1 byte. -/
def c2s : MState :=
  { free := [0], leased := [1], uncommitted := [], notFinished := [],
    numCommitted := 2, bufferSize := 1, buffersCount := 2, bytesUsed := 1,
    pos := fun _ => 0,
    owner := fun b => if b = 1 then some 9 else none,
    recs := fun _ => [], refMsg := fun _ => none }

/-- NativeMemory state whose alloc cannot obtain a buffer (no free and no
uncommitted buffers). -/
def c4s : NM :=
  ⟨{ free := [], leased := [], uncommitted := [], notFinished := [],
     numCommitted := 0, bufferSize := 8, buffersCount := 0, bytesUsed := 0,
     pos := fun _ => 0, owner := fun _ => none, recs := fun _ => [],
     refMsg := fun _ => none },
   fun _ => none, 0, false⟩

/-- NativeMemory state with the overflow flag pending and one owned leased
buffer (9 bytes used, unchanged by the flush). -/
def c4o : NM :=
  ⟨{ free := [], leased := [0], uncommitted := [], notFinished := [],
     numCommitted := 1, bufferSize := 9, buffersCount := 1, bytesUsed := 9,
     pos := fun _ => 0, owner := fun _ => some 2, recs := fun _ => [],
     refMsg := fun _ => none },
   fun _ => none, 3, true⟩

/-- NativeMemory state for the C6 counterexample: previous watermark 0,
current usage 8 (one owned leased buffer, which flush keeps). -/
def c6nm : NM :=
  ⟨{ free := [], leased := [0], uncommitted := [], notFinished := [],
     numCommitted := 1, bufferSize := 8, buffersCount := 1, bytesUsed := 8,
     pos := fun _ => 0, owner := fun _ => some 1, recs := fun _ => [],
     refMsg := fun _ => none },
   fun _ => none, 0, false⟩

/-- NativeMemory state with the overflow flag already set, used by the C10
witness; buffer space is available (buffer 0 free). -/
def c10s : NM :=
  ⟨{ free := [0], leased := [], uncommitted := [1], notFinished := [],
     numCommitted := 1, bufferSize := 8, buffersCount := 2, bytesUsed := 0,
     pos := fun _ => 0, owner := fun _ => none, recs := fun _ => [],
     refMsg := fun _ => none },
   fun _ => none, 0, true⟩

/-- The authentication payload "04242" of the C8 counterexample. -/
def c8bad : List Char := ['0', '4', '2', '4', '2']

/-- The payload "4242", the decimal text of the C8 secret. -/
def c8good : List Char := ['4', '2', '4', '2']

/-- The state after one flush loop iteration on `c1W0` (the released buffer
0 is reclaimed onto the free list). -/
def c1Step : MState × FlushLocals :=
  (flushIter (fun _ => true) c1W0 ⟨[], 0, 0, []⟩).getD (c1W0, ⟨[], 0, 0, []⟩)

/-! ## Theorems -/

/-- C3 counterexample: on a two-element stack, remove returns only the most
recently pushed item and does not leave the stack empty, contradicting the
claim that the pop operation detaches and returns the entire current chain
leaving the stack empty. -/
theorem c3_counterexample :
    CLL.remove (CLL.add 2 (CLL.add 1 [])) = (some 2, [1]) ∧
    ¬((CLL.remove (CLL.add 2 (CLL.add 1 []))).2 = []) := by
  decide

/-- C3 (amended): for every state of the lock-free stack, the remove
operation atomically detaches and returns only the head item (the most
recently pushed one), leaving the remainder of the chain as the new stack;
the stack is empty afterwards exactly when it held at most one item. -/
theorem c3_remove_head (l : List Nat) :
    (CLL.remove l).1 = l.head? ∧ (CLL.remove l).2 = l.tail ∧
    ((CLL.remove l).2 = [] ↔ l.length ≤ 1) := by
  cases l with
  | nil => simp [CLL.remove]
  | cons h t =>
    refine ⟨rfl, rfl, ?_⟩
    simp only [CLL.remove, List.length_cons]
    constructor
    · intro he; subst he; simp
    · intro hle
      have : t.length = 0 := by omega
      exact List.eq_nil_of_length_eq_zero this

/-- C5: a class-load message whose (non-empty) source string equals the
source of the previous reference message recorded in the same buffer, with
no buffer rotation and a successful allocation, is encoded with only the
has_same_source flag (no source flag, no stored string) at size_no_ref,
which is strictly smaller than the non-deduped size_with_ref; the empty
source string is normalized to absent before the dedup decision. -/
theorem c5_classload_dedup (dOff nameLen : Nat) (p : PrevRef) (s : List Char)
    (hp : p.hasSrc = true) (hps : p.src = s) (hne : ¬(s = [])) :
    clmPost dOff nameLen (some p) (some s) false true =
      some { hasSameSource := true, hasSource := false, storesSource := false,
             msize := clmSizeNoRef dOff nameLen } ∧
    clmSizeNoRef dOff nameLen < clmSizeWithRef dOff nameLen (some s) ∧
    (∀ pr r aOk, clmPost dOff nameLen pr (some []) r aOk = clmPost dOff nameLen pr none r aOk) := by
  refine ⟨?_, ?_, ?_⟩
  · cases s with
    | nil => exact absurd rfl hne
    | cons c cs =>
      simp [clmPost, clmNormSrc, clmNormPrev, clmIsNewRef, hp, hps]
  · show clmSizeNoRef dOff nameLen < clmSizeNoRef dOff nameLen + (s.length + 1)
    omega
  · intro pr r aOk
    rfl

/-- C5 witness: the dedup encoding at a concrete instance. -/
theorem c5_classload_dedup_witness :
    clmPost 40 3 (some ⟨true, ['a']⟩) (some ['a']) false true =
      some { hasSameSource := true, hasSource := false, storesSource := false,
             msize := clmSizeNoRef 40 3 } ∧
    clmSizeNoRef 40 3 < clmSizeWithRef 40 3 (some ['a']) :=
  ⟨(c5_classload_dedup 40 3 ⟨true, ['a']⟩ ['a'] rfl rfl (by decide)).1,
   (c5_classload_dedup 40 3 ⟨true, ['a']⟩ ['a'] rfl rfl (by decide)).2.1⟩

/-- C6 counterexample: with previous watermark 0 and current usage 8, the
flush computes the midpoint target 4 but stores 8 — the current usage, not
the midpoint it computed — as the new watermark, contradicting the claim
that the stored high-water mark after each flush equals the midpoint. -/
theorem c6_counterexample :
    (nmFlush (fun _ => true) c6nm).1.previousUsage = 8 ∧
    (c6nm.previousUsage + c6nm.pool.bytesUsed) / 2 = 4 ∧ ¬((8 : Nat) = 4) := by
  refine ⟨rfl, rfl, by decide⟩

/-- C6 (amended): every flush computes the committed-memory target as
(previous_usage + current_usage) / 2 in exact integer arithmetic and passes
it to the buffer-pool flush, where previous_usage is the bytes-used count
recorded at the prior flush's entry; the stored watermark after each flush
equals the bytes-used count at that flush's entry (not the midpoint), and
the data-lost report pairs that entry count with the post-flush count. -/
theorem c6_flush_target (uok : Nat → Bool) (s : NM) :
    (nmFlush uok s).1.previousUsage = s.pool.bytesUsed ∧
    (nmFlush uok s).1.pool =
      (flushBuffers uok ((s.previousUsage + s.pool.bytesUsed) / 2) s.pool).1 ∧
    (nmFlush uok s).2 =
      (if s.overflow then some (s.pool.bytesUsed, (nmFlush uok s).1.pool.bytesUsed)
       else none) :=
  ⟨rfl, rfl, rfl⟩

/-- C9 counterexample: draining a two-element queue interleaves lock
acquisitions with processing — the trace detaches the second entry only
after the first has been processed outside the lock — so the drain does not
atomically detach the entire chain in one critical section as claimed. -/
theorem c9_counterexample :
    drainTrace true [1, 2] =
      [QTrace.lockT, QTrace.popT 1, QTrace.unlockT, QTrace.processT 1, QTrace.destroyT 1,
       QTrace.lockT, QTrace.popT 2, QTrace.unlockT, QTrace.processT 2, QTrace.destroyT 2] ∧
    detachAllFirst (drainTrace true [1, 2]) = false := by
  decide

/-- C9 (amended): for every nonempty state of the event queue, the drain
loop detaches the entries one at a time, each inside its own acquisition of
the queue mutex, and outside the lock either processes the entry (when the
process flag is set) or discards it, in FIFO arrival order, destroying every
entry after handling regardless of path; the queue is empty when the loop
ends. -/
theorem c9_event_queue_drain (p : Bool) (q : List Nat) (h : ¬(q = [])) :
    drainTrace p q =
      q.flatMap fun e =>
        [QTrace.lockT, QTrace.popT e, QTrace.unlockT] ++
          (if p then [QTrace.processT e] else []) ++ [QTrace.destroyT e] := by
  induction q with
  | nil => exact absurd rfl h
  | cons e rest ih =>
    cases rest with
    | nil => simp [drainTrace]
    | cons b r2 =>
      rw [drainTrace, ih (by simp)]
      simp

/-- C9 witness: the drain trace of a concrete two-element queue. -/
theorem c9_event_queue_drain_witness :
    drainTrace true [1, 2] =
      ([1, 2] : List Nat).flatMap fun e =>
        [QTrace.lockT, QTrace.popT e, QTrace.unlockT] ++
          (if true then [QTrace.processT e] else []) ++ [QTrace.destroyT e] :=
  c9_event_queue_drain true [1, 2] (by decide)

/-- C10: once the overflow flag is set, both NativeMemory::alloc variants
return null immediately with the state completely unchanged — no ensure, no
lease, no write — regardless of available buffer space. -/
theorem c10_overflow_sticky (s : NM) (isRef : Bool) (size sizeRef thread msg : Nat)
    (c : Bool) (hov : s.overflow = true) :
    nmAlloc s size thread c msg = (none, s) ∧
    nmAllocRef s isRef size sizeRef thread c msg = (none, isRef, s) := by
  constructor
  · simp [nmAlloc, hov]
  · simp [nmAllocRef, hov]

/-- C10 witness: both alloc variants drop the event and leave the state
unchanged on a concrete overflowed state that still has a free buffer. -/
theorem c10_overflow_sticky_witness :
    nmAlloc c10s 4 0 true 7 = (none, c10s) ∧
    nmAllocRef c10s false 4 6 0 true 7 = (none, false, c10s) :=
  c10_overflow_sticky c10s false 4 6 0 7 true rfl

/-- C4: when no buffer is obtainable (ensure yields none), NativeMemory's
alloc returns null and sets the sticky overflow flag; every flush leaves the
overflow flag cleared, and a flush that found the flag set reports the
data-lost message with the bytes-used counts from before and after the
buffer-pool flush. -/
theorem c4_overflow_report (s : NM) (size thread msg : Nat) (c : Bool) (uok : Nat → Bool)
    (hov : s.overflow = false)
    (hfail : (ensure s.pool (s.threadBuf thread) size thread c).1 = none) :
    ((nmAlloc s size thread c msg).1 = none ∧
      (nmAlloc s size thread c msg).2.overflow = true) ∧
    (∀ s2 : NM, (nmFlush uok s2).1.overflow = false ∧
      (s2.overflow = true →
        (nmFlush uok s2).2 = some (s2.pool.bytesUsed, (nmFlush uok s2).1.pool.bytesUsed))) := by
  refine ⟨?_, fun s2 => ⟨rfl, fun h2 => ?_⟩⟩
  · constructor
    · simp [nmAlloc, hov, hfail]
    · simp [nmAlloc, hov, hfail]
  · simp [nmFlush, h2]

/-- C4 witness: a concrete failing allocation sets overflow, and a concrete
flush with the flag set clears it and reports the 9-byte usage unchanged. -/
theorem c4_overflow_report_witness :
    ((nmAlloc c4s 4 0 true 7).1 = none ∧ (nmAlloc c4s 4 0 true 7).2.overflow = true) ∧
    ((nmFlush (fun _ => true) c4o).1.overflow = false ∧
      (nmFlush (fun _ => true) c4o).2 = some (9, 9)) := by
  have h := c4_overflow_report c4s 4 0 7 true (fun _ => true) rfl rfl
  refine ⟨h.1, (h.2 c4o).1, ?_⟩
  have h2 := (h.2 c4o).2 rfl
  exact h2.trans (by decide)



/-- Coercion of a cons cell to a multiset. -/
theorem coeConsMS (a : Nat) (l : List Nat) :
    ((a :: l : List Nat) : Multiset Nat) = a ::ₘ (l : Multiset Nat) := rfl

/-- Coercion of an append to a multiset. -/
theorem coeAppendMS (l1 l2 : List Nat) :
    ((l1 ++ l2 : List Nat) : Multiset Nat) = (l1 : Multiset Nat) + (l2 : Multiset Nat) := rfl

/-- Characterization of the flush reclaim loop: run with fuel equal to the
length of the leased list, it empties the leased list, prepends the owned
buffers (in reverse pop order) to the not-finished chain, and folds the
ownerless buffers in pop order through `reclaimStep`. -/
theorem flushLoop_eq (uok : Nat → Bool) :
    ∀ (L : List Nat) (s : MState) (l : FlushLocals), s.leased = L →
    flushLoop uok L.length s l =
      (let a := (L.filter fun b => (s.owner b).isNone).foldl
          (reclaimStep uok s.bufferSize s.recs)
          ⟨s.free, l.pending, s.numCommitted, s.bytesUsed, l.toUncommit, l.attempt, l.sink⟩
       ({ s with leased := [], free := a.free,
                 notFinished := (L.filter fun b => (s.owner b).isSome).reverse ++ s.notFinished,
                 numCommitted := a.committed, bytesUsed := a.bytesA },
        ⟨a.pending, a.tu, a.att, a.sink⟩)) := by
  intro L
  induction L with
  | nil =>
    intro s l hs
    obtain ⟨f, le, un, nf, nc, bs, bc, bu, po, ow, rc, rm⟩ := s
    obtain ⟨lp, lt, la, ls⟩ := l
    simp only at hs
    subst hs
    rfl
  | cons b L2 ih =>
    intro s l hs
    obtain ⟨f, le, un, nf, nc, bs, bc, bu, po, ow, rc, rm⟩ := s
    obtain ⟨lp, lt, la, ls⟩ := l
    simp only at hs
    subst hs
    show flushLoop uok (L2.length + 1) _ _ = _
    rw [flushLoop]
    cases ho : ow b with
    | some w =>
      rw [show flushIter uok ⟨f, b :: L2, un, nf, nc, bs, bc, bu, po, ow, rc, rm⟩ ⟨lp, lt, la, ls⟩ =
            some (⟨f, L2, un, b :: nf, nc, bs, bc, bu, po, ow, rc, rm⟩, ⟨lp, lt, la, ls⟩) from by
          simp [flushIter, ho]]
      dsimp only
      rw [ih ⟨f, L2, un, b :: nf, nc, bs, bc, bu, po, ow, rc, rm⟩ ⟨lp, lt, la, ls⟩ rfl]
      simp [List.filter_cons, ho, List.reverse_cons, List.append_assoc]
    | none =>
      cases lt with
      | zero =>
        rw [show flushIter uok ⟨f, b :: L2, un, nf, nc, bs, bc, bu, po, ow, rc, rm⟩ ⟨lp, 0, la, ls⟩ =
              some (⟨b :: f, L2, un, nf, nc, bs, bc, bu - bs, po, ow, rc, rm⟩, ⟨lp, 0, la, ls ++ rc b⟩) from by
            simp [flushIter, ho]]
        dsimp only
        rw [ih ⟨b :: f, L2, un, nf, nc, bs, bc, bu - bs, po, ow, rc, rm⟩ ⟨lp, 0, la, ls ++ rc b⟩ rfl]
        simp [List.filter_cons, ho, reclaimStep]
      | succ tu =>
        cases hu : uok la with
        | true =>
          rw [show flushIter uok ⟨f, b :: L2, un, nf, nc, bs, bc, bu, po, ow, rc, rm⟩ ⟨lp, tu + 1, la, ls⟩ =
                some (⟨f, L2, un, nf, nc - 1, bs, bc, bu - bs, po, ow, rc, rm⟩,
                      ⟨b :: lp, tu, la + 1, ls ++ rc b⟩) from by
              simp [flushIter, ho, hu]]
          dsimp only
          rw [ih ⟨f, L2, un, nf, nc - 1, bs, bc, bu - bs, po, ow, rc, rm⟩ ⟨b :: lp, tu, la + 1, ls ++ rc b⟩ rfl]
          simp [List.filter_cons, ho, reclaimStep, hu]
        | false =>
          rw [show flushIter uok ⟨f, b :: L2, un, nf, nc, bs, bc, bu, po, ow, rc, rm⟩ ⟨lp, tu + 1, la, ls⟩ =
                some (⟨b :: f, L2, un, nf, nc, bs, bc, bu - bs, po, ow, rc, rm⟩,
                      ⟨lp, tu + 1, la + 1, ls ++ rc b⟩) from by
              simp [flushIter, ho, hu]]
          dsimp only
          rw [ih ⟨b :: f, L2, un, nf, nc, bs, bc, bu - bs, po, ow, rc, rm⟩ ⟨lp, tu + 1, la + 1, ls ++ rc b⟩ rfl]
          simp [List.filter_cons, ho, reclaimStep, hu]



/-- The reclaim fold hands the records of each folded buffer to the sink,
in fold order, regardless of the uncommit decisions. -/
theorem reclaimFold_sink (uok : Nat → Bool) (bs : Nat) (rc : Nat → List Nat) :
    ∀ (L : List Nat) (a : ReclaimAcc),
    (L.foldl (reclaimStep uok bs rc) a).sink = a.sink ++ L.flatMap rc := by
  intro L
  induction L with
  | nil => intro a; simp
  | cons b L2 ih =>
    intro a
    rw [List.foldl_cons, ih]
    have hstep : (reclaimStep uok bs rc a b).sink = a.sink ++ rc b := by
      obtain ⟨af, ap, ac, ab, atu, aat, ask⟩ := a
      cases atu with
      | zero => rfl
      | succ tu =>
        cases huk : uok aat <;> simp [reclaimStep, huk]
    rw [hstep]
    simp

/-- flush_buffers coincides with its claim-shaped restatement. -/
theorem flushBuffers_eq_spec (uok : Nat → Bool) (goal : Nat) (s : MState) :
    flushBuffers uok goal s = flushSpecC2 uok goal s := by
  obtain ⟨f, le, un, nf, nc, bs, bc, bu, po, ow, rc, rm⟩ := s
  unfold flushBuffers flushSpecC2
  dsimp only
  rw [flushLoop_eq uok le ⟨f, le, un, nf, nc, bs, bc, bu, po, ow, rc, rm⟩
      ⟨[], nc - goal / bs, 0, []⟩ rfl]
  dsimp only
  simp



/-- C2 counterexample. -/
theorem c2_counterexample :
    (flushBuffers (fun _ => false) 1 c2s).1.free = [] ∧
    (flushBuffers (fun _ => false) 1 c2s).1.uncommitted = [] ∧
    (flushBuffers (fun _ => false) 1 c2s).1.leased = [1] ∧
    (flushBuffers (fun _ => false) 1 c2s).1.numCommitted = 2 ∧
    c2s.free = [0] := by decide

/-- C2 (amended). -/
theorem c2_flush_buffers (uok : Nat → Bool) (goal : Nat) (s : MState) :
    flushBuffers uok goal s = flushSpecC2 uok goal s ∧
    (flushBuffers uok goal s).2 = (s.leased.filter fun b => (s.owner b).isNone).flatMap s.recs ∧
    (flushBuffers uok goal s).1.leased =
      (s.leased.filter fun b => (s.owner b).isSome).reverse ++ s.notFinished := by
  refine ⟨flushBuffers_eq_spec uok goal s, ?_, ?_⟩
  · rw [flushBuffers_eq_spec uok goal s]
    unfold flushSpecC2
    dsimp only
    rw [reclaimFold_sink]
    simp
  · rw [flushBuffers_eq_spec uok goal s]
    rfl



/-- Coercion of the empty list to a multiset. -/
theorem coeNilMS : (([] : List Nat) : Multiset Nat) = 0 := rfl

/-- lease_buffer preserves the extended partition invariant: a lease from
the free list moves one buffer from free to leased; a lease from the
uncommitted list additionally increments the committed count, which stays
within the buffer count because the uncommitted list was nonempty. -/
theorem leaseBuffer_invMid (s : MState) (t : Nat) (c : Bool) (pe : List Nat)
    (h : invMid s pe) : invMid (leaseBuffer s t c).2 pe := by
  obtain ⟨f, le, un, nf, nc, bs, bc, bu, po, ow, rc, rm⟩ := s
  unfold invMid at h ⊢
  dsimp only at h
  obtain ⟨hm, hc, hb⟩ := h
  cases f with
  | cons b rest =>
    unfold leaseBuffer doLease
    dsimp only
    refine ⟨?_, ?_, ?_⟩
    · rw [← hm]
      simp only [coeConsMS, Multiset.cons_add, Multiset.add_cons]
    · simp only [List.length_cons] at hc ⊢
      omega
    · exact hb
  | nil =>
    cases un with
    | nil =>
      unfold leaseBuffer
      dsimp only
      exact ⟨hm, hc, hb⟩
    | cons b rest =>
      cases c with
      | false =>
        unfold leaseBuffer
        dsimp only
        rw [if_neg Bool.false_ne_true]
        exact ⟨hm, hc, hb⟩
      | true =>
        unfold leaseBuffer doLease
        dsimp only
        rw [if_pos rfl]
        dsimp only
        refine ⟨?_, ?_, ?_⟩
        · rw [← hm]
          simp only [coeConsMS, Multiset.cons_add, Multiset.add_cons]
        · simp only [List.length_cons, List.length_nil] at hc ⊢
          omega
        · have hcard := congrArg Multiset.card hm
          simp only [Multiset.card_add, Multiset.coe_card, List.length_range,
            List.length_cons, List.length_nil] at hcard
          simp only [List.length_nil] at hc
          omega

/-- ensure preserves the extended partition invariant: either it returns the
buffer unchanged, or it clears the owner (which the invariant does not
mention) and leases. -/
theorem ensure_invMid (s : MState) (cur : Option Nat) (sz t : Nat) (c : Bool)
    (pe : List Nat) (h : invMid s pe) : invMid (ensure s cur sz t c).2 pe := by
  cases cur with
  | none => exact leaseBuffer_invMid s t c pe h
  | some b =>
    unfold ensure
    dsimp only
    by_cases hfit : sz ≤ s.bufferSize - s.pos b
    · rw [if_pos hfit]
      exact h
    · rw [if_neg hfit]
      exact leaseBuffer_invMid (releaseB s b) t c pe h

/-- Each iteration of the flush reclaim loop preserves the extended
partition invariant (the popped buffer moves to the not-finished chain, the
free list, or the pending uncommitted chain, with the committed count
adjusted accordingly). -/
theorem flushIter_invMid (uok : Nat → Bool) (s : MState) (l : FlushLocals)
    (s2 : MState) (l2 : FlushLocals) (h : invMid s l.pending)
    (he : flushIter uok s l = some (s2, l2)) : invMid s2 l2.pending := by
  obtain ⟨f, le, un, nf, nc, bs, bc, bu, po, ow, rc, rm⟩ := s
  obtain ⟨lp, lt, la, ls⟩ := l
  unfold invMid at h
  dsimp only at h
  obtain ⟨hm, hc, hb⟩ := h
  cases le with
  | nil => simp [flushIter] at he
  | cons b rest =>
    cases ho : ow b with
    | some w =>
      simp only [flushIter, ho] at he
      simp only [Option.some.injEq, Prod.mk.injEq] at he
      obtain ⟨hs2, hl2⟩ := he
      subst hs2
      subst hl2
      unfold invMid
      dsimp only
      refine ⟨?_, ?_, ?_⟩
      · rw [← hm]
        simp only [coeConsMS, Multiset.cons_add, Multiset.add_cons]
      · simp only [List.length_cons] at hc ⊢
        omega
      · exact hb
    | none =>
      cases lt with
      | zero =>
        simp only [flushIter, ho] at he
        simp only [Option.some.injEq, Prod.mk.injEq] at he
        obtain ⟨hs2, hl2⟩ := he
        subst hs2
        subst hl2
        unfold invMid
        dsimp only
        refine ⟨?_, ?_, ?_⟩
        · rw [← hm]
          simp only [coeConsMS, Multiset.cons_add, Multiset.add_cons]
        · simp only [List.length_cons] at hc ⊢
          omega
        · exact hb
      | succ tu =>
        cases hu : uok la with
        | true =>
          simp only [flushIter, ho, hu, if_pos] at he
          simp only [Option.some.injEq, Prod.mk.injEq] at he
          obtain ⟨hs2, hl2⟩ := he
          subst hs2
          subst hl2
          unfold invMid
          dsimp only
          refine ⟨?_, ?_, ?_⟩
          · rw [← hm]
            simp only [coeConsMS, Multiset.cons_add, Multiset.add_cons]
          · simp only [List.length_cons] at hc ⊢
            omega
          · omega
        | false =>
          simp only [flushIter, ho, hu] at he
          rw [if_neg Bool.false_ne_true] at he
          simp only [Option.some.injEq, Prod.mk.injEq] at he
          obtain ⟨hs2, hl2⟩ := he
          subst hs2
          subst hl2
          unfold invMid
          dsimp only
          refine ⟨?_, ?_, ?_⟩
          · rw [← hm]
            simp only [coeConsMS, Multiset.cons_add, Multiset.add_cons]
          · simp only [List.length_cons] at hc ⊢
            omega
          · exact hb

/-- The whole reclaim loop preserves the extended partition invariant. -/
theorem flushLoop_invMid (uok : Nat → Bool) :
    ∀ (fuel : Nat) (s : MState) (l : FlushLocals), invMid s l.pending →
    invMid (flushLoop uok fuel s l).1 (flushLoop uok fuel s l).2.pending := by
  intro fuel
  induction fuel with
  | zero => intro s l h; exact h
  | succ n ih =>
    intro s l h
    rw [flushLoop]
    cases he : flushIter uok s l with
    | none => exact h
    | some r =>
      dsimp only
      exact ih r.1 r.2 (flushIter_invMid uok s l r.1 r.2 h (by rw [he]))

/-- The idle-free uncommit phase preserves the partition when every uncommit
attempt succeeds: each success moves one buffer from the free list to the
pending uncommitted chain and decrements the committed count. -/
theorem idleLoop_inv (uok : Nat → Bool) (hu : ∀ n, uok n = true) :
    ∀ (tu : Nat) (freeL pending lease unc nf : List Nat) (committed att count : Nat),
    ((freeL : Multiset Nat) + (lease : Multiset Nat) + (unc : Multiset Nat)
        + (nf : Multiset Nat) + (pending : Multiset Nat)
      = (List.range count : Multiset Nat)) →
    committed = freeL.length + lease.length + nf.length →
    committed ≤ count →
    ((((idleLoop uok freeL pending committed tu att).1 : List Nat) : Multiset Nat)
        + (lease : Multiset Nat) + (unc : Multiset Nat) + (nf : Multiset Nat)
        + (((idleLoop uok freeL pending committed tu att).2.1 : List Nat) : Multiset Nat)
      = (List.range count : Multiset Nat)) ∧
    (idleLoop uok freeL pending committed tu att).2.2 =
      (idleLoop uok freeL pending committed tu att).1.length + lease.length + nf.length ∧
    (idleLoop uok freeL pending committed tu att).2.2 ≤ count := by
  intro tu
  induction tu with
  | zero =>
    intro freeL pending lease unc nf committed att count hm hc hb
    cases freeL with
    | nil => exact ⟨hm, hc, hb⟩
    | cons b rest => exact ⟨hm, hc, hb⟩
  | succ tu ih =>
    intro freeL pending lease unc nf committed att count hm hc hb
    cases freeL with
    | nil => exact ⟨hm, hc, hb⟩
    | cons b rest =>
      simp only [idleLoop, hu att, if_true]
      apply ih rest (b :: pending) lease unc nf (committed - 1) (att + 1) count
      · rw [← hm]
        simp only [coeConsMS, Multiset.cons_add, Multiset.add_cons]
      · simp only [List.length_cons] at hc ⊢
        omega
      · omega



/-- The constructor establishes the three-set invariant: the committed
buffers fill the free list, the rest the uncommitted list. -/
theorem mkPool_inv (bs count n0 : Nat) (h : n0 ≤ count) : invClaim (mkPool bs count n0) := by
  unfold invClaim mkPool
  dsimp only
  refine ⟨?_, by simp, h⟩
  have hl : List.range n0 ++ List.range' n0 (count - n0) = List.range count := by
    rw [List.range_eq_range', List.range_eq_range']
    have h2 := List.range'_append_1 0 n0 (count - n0)
    rw [Nat.zero_add] at h2
    rw [h2]
    congr 1
    omega
  rw [← hl, coeAppendMS]
  simp

/-- At an operation boundary (empty not-finished chain, no flush in
progress) the extended invariant coincides with the claim's three-set
invariant. -/
theorem invMid_nil (s : MState) (hnf : s.notFinished = []) : invMid s [] ↔ invClaim s := by
  unfold invMid invClaim
  rw [hnf]
  simp

/-- A complete flush_buffers preserves the three-set invariant provided
every uncommit attempt succeeds (an uncommit failure in the idle-free phase
would drop the popped buffer from all lists). -/
theorem flushBuffers_inv (uok : Nat → Bool) (hu : ∀ n, uok n = true) (goal : Nat)
    (s : MState) (h : invMid s []) (hnf : s.notFinished = []) :
    invClaim (flushBuffers uok goal s).1 ∧ (flushBuffers uok goal s).1.notFinished = [] := by
  obtain ⟨f, le, un, nf, nc, bs, bc, bu, po, ow, rc, rm⟩ := s
  dsimp only at hnf
  subst hnf
  have hfl := flushLoop_eq uok le ⟨f, le, un, [], nc, bs, bc, bu, po, ow, rc, rm⟩
      ⟨[], nc - goal / bs, 0, []⟩ rfl
  have hinv := flushLoop_invMid uok le.length ⟨f, le, un, [], nc, bs, bc, bu, po, ow, rc, rm⟩
      ⟨[], nc - goal / bs, 0, []⟩ h
  rw [hfl] at hinv
  unfold flushBuffers
  dsimp only
  rw [hfl]
  dsimp only
  set A := (List.filter (fun b => (ow b).isNone) le).foldl (reclaimStep uok bs rc)
      ⟨f, [], nc, bu, nc - goal / bs, 0, []⟩ with hA
  set FR := (List.filter (fun b => (ow b).isSome) le).reverse with hFR
  unfold invMid at hinv
  dsimp only at hinv
  simp only [List.append_nil, coeNilMS, add_zero, List.length_nil, Nat.add_zero] at hinv
  obtain ⟨hm, hc, hb⟩ := hinv
  simp only [List.append_nil]
  have hm2 : ((A.free : List Nat) : Multiset Nat) + (FR : Multiset Nat) + (un : Multiset Nat)
      + (([] : List Nat) : Multiset Nat) + ((A.pending : List Nat) : Multiset Nat)
      = (List.range bc : Multiset Nat) := by
    rw [← hm]
    simp only [coeNilMS, add_zero]
    abel
  have hc2 : A.committed = A.free.length + FR.length + ([] : List Nat).length := by
    simp only [List.length_nil]
    omega
  have R := idleLoop_inv uok hu A.tu A.free A.pending FR un [] A.committed A.att bc hm2 hc2 hb
  unfold invClaim
  dsimp only
  refine ⟨⟨?_, ?_, R.2.2⟩, trivial⟩
  · rw [coeAppendMS, ← R.1]
    simp only [coeNilMS, add_zero]
    abel
  · have h3 := R.2.1
    simp only [List.length_nil] at h3
    omega



/-- C1 counterexample. -/
theorem c1_counterexample : invClaim c1S0 ∧ ¬ invClaim c1Mid := by
  unfold invClaim
  decide

/-- C1 (amended). -/
theorem c1_pool_invariant (bs count n0 thread sz goal : Nat) (c : Bool) (uok : Nat → Bool)
    (s : MState) (l : FlushLocals) (cur : Option Nat) :
    (n0 ≤ count → invClaim (mkPool bs count n0)) ∧
    (s.notFinished = [] → (invMid s [] ↔ invClaim s)) ∧
    (invMid s l.pending → invMid (leaseBuffer s thread c).2 l.pending) ∧
    (invMid s l.pending → invMid (ensure s cur sz thread c).2 l.pending) ∧
    (invMid s l.pending → ∀ s2 l2, flushIter uok s l = some (s2, l2) → invMid s2 l2.pending) ∧
    ((∀ n, uok n = true) → invMid s [] → s.notFinished = [] →
      invClaim (flushBuffers uok goal s).1 ∧ (flushBuffers uok goal s).1.notFinished = []) :=
  ⟨fun h0 => mkPool_inv bs count n0 h0,
   fun hn => invMid_nil s hn,
   fun h => leaseBuffer_invMid s thread c l.pending h,
   fun h => ensure_invMid s cur sz thread c l.pending h,
   fun h s2 l2 he => flushIter_invMid uok s l s2 l2 h he,
   fun hu h hnf => flushBuffers_inv uok hu goal s h hnf⟩

/-- C1 witness. -/
theorem c1_pool_invariant_witness :
    invClaim (mkPool 8 2 1) ∧
    (invMid c1W0 [] ↔ invClaim c1W0) ∧
    invMid (leaseBuffer c1W0 3 true).2 [] ∧
    invMid (ensure c1W0 none 4 3 true).2 [] ∧
    invMid c1Step.1 c1Step.2.pending ∧
    (invClaim (flushBuffers (fun _ => true) 4 c1W0).1 ∧
      (flushBuffers (fun _ => true) 4 c1W0).1.notFinished = []) := by
  have h := c1_pool_invariant 8 2 1 3 4 4 true (fun _ => true) c1W0 ⟨[], 0, 0, []⟩ none
  have hinv : invMid c1W0 [] := by unfold invMid; decide
  exact ⟨h.1 (by decide), h.2.1 rfl, h.2.2.1 hinv, h.2.2.2.1 hinv,
    h.2.2.2.2.1 hinv c1Step.1 c1Step.2 rfl, h.2.2.2.2.2 (fun _ => rfl) hinv rfl⟩



/-- A size never exceeds its 8-byte aligned round-up. -/
theorem le_align8 (n : Nat) : n ≤ align8 n := by
  unfold align8
  omega

/-- Rounding up to 8 stays below any 8-aligned upper bound. -/
theorem align8_le (n m : Nat) (h1 : n ≤ m) (h2 : m % 8 = 0) : align8 n ≤ m := by
  unfold align8
  omega

/-- The aligned size is a multiple of 8. -/
theorem align8_mod (n : Nat) : align8 n % 8 = 0 := by
  unfold align8
  omega

/-- Offsets in an allocation sequence never precede the starting cursor. -/
theorem allocSeq_ge : ∀ (sizes : List Nat) (pos : Nat) (q : Nat × Nat),
    q ∈ allocSeq pos sizes → pos ≤ q.1 := by
  intro sizes
  induction sizes with
  | nil =>
    intro pos q hq
    simp [allocSeq] at hq
  | cons sz rest ih =>
    intro pos q hq
    simp only [allocSeq, List.mem_cons] at hq
    rcases hq with rfl | hq
    · exact le_refl pos
    · have h1 := ih (pos + align8 sz) q hq
      omega

/-- Every allocation in a sequence satisfying the fit guards stays within
the buffer capacity. -/
theorem allocSeq_bounds (cap : Nat) (hcap : cap % 8 = 0) :
    ∀ (sizes : List Nat) (pos : Nat), pos % 8 = 0 → pos ≤ cap →
    fitsSeq cap pos sizes = true →
    ∀ q ∈ allocSeq pos sizes, q.1 + q.2 ≤ cap := by
  intro sizes
  induction sizes with
  | nil =>
    intro pos _ _ _ q hq
    simp [allocSeq] at hq
  | cons sz rest ih =>
    intro pos hp hpc hf q hq
    simp only [fitsSeq, Bool.and_eq_true, decide_eq_true_eq] at hf
    obtain ⟨h1, h2⟩ := hf
    simp only [allocSeq, List.mem_cons] at hq
    rcases hq with rfl | hq
    · dsimp only
      omega
    · have h8 : (pos + align8 sz) % 8 = 0 := by
        have h3 := align8_mod sz
        omega
      have hle : pos + align8 sz ≤ cap := by
        have ha : align8 sz ≤ cap - pos := align8_le sz (cap - pos) (by omega) (by omega)
        omega
      exact ih (pos + align8 sz) h8 hle h2 q hq

/-- Successive allocations in one buffer occupy non-overlapping ranges: the
end of each requested range is at or before the start of every later one. -/
theorem allocSeq_pairwise : ∀ (sizes : List Nat) (pos : Nat),
    List.Pairwise (fun a b : Nat × Nat => a.1 + a.2 ≤ b.1) (allocSeq pos sizes) := by
  intro sizes
  induction sizes with
  | nil =>
    intro pos
    simp [allocSeq]
  | cons sz rest ih =>
    intro pos
    simp only [allocSeq]
    refine List.Pairwise.cons ?_ (ih (pos + align8 sz))
    intro q hq
    have h1 := allocSeq_ge rest (pos + align8 sz) q hq
    have h2 := le_align8 sz
    dsimp only
    omega

/-- C7: for every sequence of in-buffer allocations that satisfies the
ensure/alloc size guards (buffer capacity a multiple of 8, as guaranteed by
the page-aligned buffer size), each returned range lies inside its buffer
and hence inside the pool's reserved region (buffer i of `count`, capacity
`cap` each), and the ranges of any two allocations do not overlap; each bump
advances the cursor by the size rounded up to 8-byte alignment. -/
theorem c7_alloc_bounds (cap count i : Nat) (sizes : List Nat)
    (hcap : cap % 8 = 0) (hfits : fitsSeq cap 0 sizes = true) (hi : i < count) :
    (∀ q ∈ allocSeq 0 sizes, q.1 + q.2 ≤ cap ∧ i * cap + q.1 + q.2 ≤ count * cap) ∧
    List.Pairwise (fun a b : Nat × Nat => a.1 + a.2 ≤ b.1) (allocSeq 0 sizes) := by
  constructor
  · intro q hq
    have h1 := allocSeq_bounds cap hcap sizes 0 (by omega) (by omega) hfits q hq
    refine ⟨h1, ?_⟩
    have h2 : (i + 1) * cap ≤ count * cap := Nat.mul_le_mul_right cap hi
    have h3 : (i + 1) * cap = i * cap + cap := by ring
    omega
  · exact allocSeq_pairwise sizes 0

/-- C7 witness: a concrete allocation sequence in buffer 1 of 3, capacity
16. -/
theorem c7_alloc_bounds_witness :
    allocSeq 0 [3, 5] = [(0, 3), (8, 5)] ∧
    List.Pairwise (fun a b : Nat × Nat => a.1 + a.2 ≤ b.1) (allocSeq 0 [3, 5]) ∧
    (8 + 5 ≤ 16 ∧ 1 * 16 + 8 + 5 ≤ 3 * 16) := by
  have h := c7_alloc_bounds 16 3 1 [3, 5] (by decide) (by decide) (by decide)
  exact ⟨by decide, h.2, h.1 (8, 5) (by decide)⟩



/-- Every processed request of the command loop gets exactly one response,
always the empty frame "0000". -/
theorem cmdLoop_replies (inited : Bool) :
    ∀ msgs : List (List Char),
    (cmdLoop inited msgs).1 = (cmdLoop inited msgs).2.map (fun _ => frame []) := by
  intro msgs
  induction msgs with
  | nil => rfl
  | cons m rest ih =>
    cases hstop : stopsCmd inited m with
    | true => simp [cmdLoop, hstop]
    | false => simp [cmdLoop, hstop, ih]

/-- After a stopping command, the loop processes nothing further: the
processed list is exactly the non-stopping prefix plus the stopping
command. -/
theorem cmdLoop_stops (inited : Bool) (d : List Char) (post : List (List Char))
    (hd : stopsCmd inited d = true) :
    ∀ pre : List (List Char), (∀ m ∈ pre, stopsCmd inited m = false) →
    cmdLoop inited (pre ++ d :: post) =
      (pre.map (fun _ => frame []) ++ [frame []], pre ++ [d]) := by
  intro pre
  induction pre with
  | nil =>
    intro _
    simp [cmdLoop, hd]
  | cons m rest ih =>
    intro hpre
    have hm : stopsCmd inited m = false := hpre m (by simp)
    have hrest : ∀ x ∈ rest, stopsCmd inited x = false := fun x hx => hpre x (by simp [hx])
    simp only [List.cons_append]
    rw [show cmdLoop inited (m :: (rest ++ d :: post)) =
        (frame [] :: (cmdLoop inited (rest ++ d :: post)).1,
         m :: (cmdLoop inited (rest ++ d :: post)).2) from by simp [cmdLoop, hm]]
    rw [ih hrest]
    simp

/-- C8 (amended): the server accepts an authentication payload exactly when
it parses (C atoi) to the shared secret — for the secret's own decimal text
this holds, but also for other atoi-equivalent payloads — replying with the
length-prefixed "0002"+"OK" and entering the request loop; on parse mismatch
it closes the connection with nothing written and no commands processed;
each processed request gets exactly one length-prefixed response, always the
empty "0000"; after a stopping command (such as disableCRS()) is accepted
with its empty reply, no further commands are processed. -/
theorem c8_control_channel (secret : Int) (auth : List Char) (rest : List (List Char))
    (inited : Bool) (pre post : List (List Char)) (d : List Char)
    (hpre : ∀ m ∈ pre, stopsCmd inited m = false) (hd : strHasPre disableLit d = true) :
    frame okChars = ['0', '0', '0', '2', 'O', 'K'] ∧
    frame [] = ['0', '0', '0', '0'] ∧
    (atoi auth = secret →
      serverRun secret inited (auth :: rest) =
        ⟨frame okChars :: (cmdLoop inited rest).1, false, (cmdLoop inited rest).2⟩) ∧
    (¬(atoi auth = secret) → serverRun secret inited (auth :: rest) = ⟨[], true, []⟩) ∧
    (cmdLoop inited rest).1 = (cmdLoop inited rest).2.map (fun _ => frame []) ∧
    cmdLoop inited (pre ++ d :: post) =
      (pre.map (fun _ => frame []) ++ [frame []], pre ++ [d]) := by
  refine ⟨by decide, by decide, ?_, ?_, cmdLoop_replies inited rest, ?_⟩
  · intro h
    simp [serverRun, h]
  · intro h
    simp [serverRun, h]
  · have hds : stopsCmd inited d = true := by
      simp [stopsCmd, hd]
    exact cmdLoop_stops inited d post hds pre hpre

/-- C8 witness: secret 4242, payload "4242", then a non-stopping command
followed by disableCRS(). -/
theorem c8_control_channel_witness :
    serverRun 4242 true [c8good] = ⟨[frame okChars], false, []⟩ ∧
    cmdLoop true ([['f', 'o', 'o']] ++ disableLit :: []) =
      ([frame [], frame []], [['f', 'o', 'o'], disableLit]) := by
  have h := c8_control_channel 4242 c8good [] true [['f', 'o', 'o']] [] disableLit
      (by decide) (by decide)
  constructor
  · have h2 := h.2.2.1 (by decide)
    simpa [cmdLoop] using h2
  · have h3 := h.2.2.2.2.2
    simpa using h3

/-- C8 counterexample: with secret 4242, the payload "04242" differs from
the secret's text "4242" yet the server replies "0002"+"OK" instead of
closing the connection, because authentication compares atoi(payload). -/
theorem c8_counterexample :
    ¬(c8bad = c8good) ∧
    serverRun 4242 true [c8bad] = ⟨[frame okChars], false, []⟩ := by
  constructor
  · decide
  · decide


end CRS
